import Mathlib

/-!
Shallow embedding of the fatfreetrader market-data replay engine
(`src/engine.py`, `src/fatfreeengine.py`) and proofs about it.

Modelling conventions:
* `pd.Timestamp` values are integer nanoseconds since the epoch (`Nat`);
  Python floats are modelled as `ℚ` (all arithmetic in scope is exact
  field arithmetic on finitely many samples);
* `np.nan`, the "defined-absent" marker of an indicator value, is `none`;
* Python code that can raise returns `Except String _`;
* the two pipeline threads plus the controller's `stop` call are modelled
  as a small-step state machine driven by an explicit schedule (a list of
  thread tags); every interleaving of the threads' atomic regions is some
  schedule.
-/

/-- Bar field a `SimpleMovingAverage` can be applied on (`applied_on`); the spec
fixes the selectable fields to open/high/low/close. -/
inductive BarField
  | «open»
  | high
  | low
  | close
deriving DecidableEq, Repr

/-- Source `BarEventMessage` from `src/engine.py`: one OHLCV sample. -/
structure BarEventMessage where
  ts_event : Nat
  «open» : ℚ
  high : ℚ
  low : ℚ
  close : ℚ
  volume : Int
  symbol : String
deriving DecidableEq, Repr

/-- Python `getattr(bar, applied_on)` restricted to the four price fields. -/
def BarEventMessage.getattr (bar : BarEventMessage) : BarField → ℚ
  | BarField.«open» => bar.«open»
  | BarField.high => bar.high
  | BarField.low => bar.low
  | BarField.close => bar.close

/-- Source `ProcessedBarEventMessage` from `src/engine.py`: a bar plus the
indicator name → value mapping (insertion-ordered, like a Python dict). -/
structure ProcessedBarEventMessage where
  ts_event : Nat
  «open» : ℚ
  high : ℚ
  low : ℚ
  close : ℚ
  volume : Int
  symbol : String
  indicators : List (String × Option ℚ)
deriving DecidableEq, Repr

/-- Classmethod `ProcessedBarEventMessage.from_bar`. -/
def ProcessedBarEventMessage.from_bar (bar : BarEventMessage)
    (indicator_values : List (String × Option ℚ)) : ProcessedBarEventMessage :=
  { ts_event := bar.ts_event
    «open» := bar.«open»
    high := bar.high
    low := bar.low
    close := bar.close
    volume := bar.volume
    symbol := bar.symbol
    indicators := indicator_values }

/-- One append to a `collections.deque(maxlen := cap)` holding rationals:
the new element goes on the right and the leftmost elements are dropped so
that at most `cap` remain (for `cap = 0` the deque stays empty). -/
def dequeAppend (cap : Nat) (l : List ℚ) (x : ℚ) : List ℚ :=
  (l ++ [x]).drop (l.length + 1 - cap)

/-- Left fold of `dequeAppend` over a history of samples, i.e. the deque
contents after appending the whole history to an empty deque. -/
def dequeFold (cap : Nat) (l : List ℚ) : List ℚ :=
  l.foldl (dequeAppend cap) []

/-- Source `SimpleMovingAverage` state from `src/engine.py`: trailing buffer
`values` (a `deque(maxlen := period)`) and `_current_value` (`np.nan`,
i.e. `none`, until the buffer first fills). -/
structure SimpleMovingAverage where
  period : Nat
  applied_on : BarField
  values : List ℚ
  _current_value : Option ℚ
deriving DecidableEq, Repr

/-- Constructor `SimpleMovingAverage.__init__`. -/
def SimpleMovingAverage.init (period : Nat) (applied_on : BarField) :
    SimpleMovingAverage :=
  { period := period, applied_on := applied_on, values := [], _current_value := none }

/-- String form of the applied field, used by the indicator name. -/
def BarField.str : BarField → String
  | BarField.«open» => "open"
  | BarField.high => "high"
  | BarField.low => "low"
  | BarField.close => "close"

/-- Property `SimpleMovingAverage.name`, the f-string SMA_<period>_<applied_on>. -/
def SimpleMovingAverage.name (s : SimpleMovingAverage) : String :=
  "SMA_" ++ toString s.period ++ "_" ++ s.applied_on.str

/-- Method `SimpleMovingAverage.update`: append the applied field's value to the
trailing buffer; when the buffer length equals `period`, recompute
`_current_value := sum(values) / period`.  In Python `sum([]) / 0` raises
`ZeroDivisionError`, which the `Except` error case models (the division is
only reached when the buffer length equals `period`). -/
def SimpleMovingAverage.update (s : SimpleMovingAverage) (bar : BarEventMessage) :
    Except String SimpleMovingAverage :=
  let vals := dequeAppend s.period s.values (bar.getattr s.applied_on)
  if vals.length = s.period then
    if s.period = 0 then Except.error "ZeroDivisionError"
    else Except.ok { s with values := vals,
                            _current_value := some (vals.sum / (s.period : ℚ)) }
  else Except.ok { s with values := vals }

/-- Method `SimpleMovingAverage.value`. -/
def SimpleMovingAverage.value (s : SimpleMovingAverage) : Option ℚ :=
  s._current_value

/-- The raise-free functional core of `update`; `update` returns `ok` of
exactly this state whenever `period ≠ 0` (`update_eq_ok`). -/
def SimpleMovingAverage.updateP (s : SimpleMovingAverage) (bar : BarEventMessage) :
    SimpleMovingAverage :=
  let vals := dequeAppend s.period s.values (bar.getattr s.applied_on)
  if vals.length = s.period then
    { s with values := vals, _current_value := some (vals.sum / (s.period : ℚ)) }
  else { s with values := vals }

/-- SMA state after feeding a list of bars, starting from a fresh instance. -/
def smaState (period : Nat) (applied_on : BarField) (bars : List BarEventMessage) :
    Except String SimpleMovingAverage :=
  bars.foldlM SimpleMovingAverage.update (SimpleMovingAverage.init period applied_on)

/-- The observable indicator value after feeding a list of bars. -/
def smaValue (period : Nat) (applied_on : BarField) (bars : List BarEventMessage) :
    Except String (Option ℚ) :=
  (smaState period applied_on bars).map SimpleMovingAverage.value

/-- One record of the CSV data port, as seen by `ReplayDataHandler`:
either a row that parses into a bar for some symbol, or a record whose
read raises a transient error (caught inside `get_next_bar`). -/
inductive Record
  | row (symbol : String) (bar : BarEventMessage)
  | err
deriving DecidableEq, Repr

/-- Method `ReplayDataHandler.get_next_bar`: pull rows off the iterator, skipping
rows whose symbol does not match; return the bar for the first matching
row.  `StopIteration` (exhausted source) and any other exception both
yield `None` (the latter after a log line).  Returns the result together
with the remaining records. -/
def get_next_bar : List Record → String → Option BarEventMessage × List Record
  | [], _ => (none, [])
  | Record.err :: rest, _ => (none, rest)
  | Record.row s b :: rest, symbol =>
      if s = symbol then (some b, rest) else get_next_bar rest symbol

/-- Program counter of the processing thread inside its loop body: at the
`while` check, inside `incoming_bar_event_queue.get(timeout=0.02)`, or
holding a just-dequeued bar right before the graceful-check in the body. -/
inductive ProcPc
  | atLoopTop
  | inGet
  | gotBar (b : BarEventMessage)
deriving DecidableEq, Repr

/-- State shared between the two pipeline threads and the controller:
queues, the stop event and graceful flag, the data handler's remaining
records, the indicator registry, and each thread's progress.  `calls`
records the result of every `get_next_bar` call made by the ingestion
thread, in order. -/
structure EngineState where
  source : List Record
  symbol : String
  stopEvent : Bool
  _graceful_stop : Bool
  incoming : List BarEventMessage
  processed : List ProcessedBarEventMessage
  indicators : List (String × SimpleMovingAverage)
  fetchDone : Bool
  procPc : ProcPc
  procDone : Bool
  calls : List (Option BarEventMessage)
deriving DecidableEq, Repr

/-- One iteration of `TradingEngine._fetch_market_data`: check the stop
event at the loop top; otherwise call `get_next_bar`, exit on `None`, else
enqueue the bar on the incoming queue.  (The fetch-and-enqueue pair is one
atomic step: no other thread writes the incoming queue, and the claims'
scenarios do not distinguish interleavings inside it.) -/
def fetchStep (s : EngineState) : EngineState :=
  if s.fetchDone then s
  else if s.stopEvent then { s with fetchDone := true }
  else
    match get_next_bar s.source s.symbol with
    | (none, rest) =>
        { s with fetchDone := true, source := rest, calls := s.calls ++ [none] }
    | (some b, rest) =>
        { s with source := rest, incoming := s.incoming ++ [b],
                 calls := s.calls ++ [some b] }

/-- The indicator for-loop of `TradingEngine._process_market_data`: update
every registered indicator with the bar in registration order and collect
name → value.  An exception from an indicator's `update` (only
`ZeroDivisionError` for period 0) propagates as an error. -/
def runIndicators : List (String × SimpleMovingAverage) → BarEventMessage →
    Except String (List (String × SimpleMovingAverage) × List (String × Option ℚ))
  | [], _ => Except.ok ([], [])
  | (n, ind) :: rest, bar =>
      match ind.update bar with
      | Except.error e => Except.error e
      | Except.ok ind2 =>
          match runIndicators rest bar with
          | Except.error e => Except.error e
          | Except.ok (rest2, vals) =>
              Except.ok ((n, ind2) :: rest2, (n, ind2.value) :: vals)

/-- One atomic step of `TradingEngine._process_market_data`.  At the loop
top the `while not stop_event` condition is checked.  `inGet` resolves the
timed `get`: either a bar is dequeued, or the queue is empty (`Empty` is
raised) and the stop event decides between exiting and looping.  With a
dequeued bar in hand, the body discards it and exits if a non-graceful
stop has been requested; otherwise it runs the indicators, enqueues the
enriched bar, and returns to the loop top (an uncaught indicator
exception terminates the thread). -/
def procStep (s : EngineState) : EngineState :=
  if s.procDone then s
  else
    match s.procPc with
    | ProcPc.atLoopTop =>
        if s.stopEvent then { s with procDone := true }
        else { s with procPc := ProcPc.inGet }
    | ProcPc.inGet =>
        match s.incoming with
        | [] =>
            if s.stopEvent then { s with procDone := true, procPc := ProcPc.atLoopTop }
            else { s with procPc := ProcPc.atLoopTop }
        | b :: rest => { s with incoming := rest, procPc := ProcPc.gotBar b }
    | ProcPc.gotBar b =>
        if s.stopEvent && !s._graceful_stop then
          { s with procDone := true, procPc := ProcPc.atLoopTop }
        else
          match runIndicators s.indicators b with
          | Except.error _ => { s with procDone := true, procPc := ProcPc.atLoopTop }
          | Except.ok (inds, vals) =>
              { s with indicators := inds,
                       processed := s.processed ++
                         [ProcessedBarEventMessage.from_bar b vals],
                       procPc := ProcPc.atLoopTop }

/-- The mutating prefix of `TradingEngine.stop(graceful)`: record the stop
mode, set the stop event, and for a non-graceful stop drain everything
currently in the incoming queue.  The subsequent `join`s are modelled by
`stopReturned`. -/
def stopStep (graceful : Bool) (s : EngineState) : EngineState :=
  let s1 := { s with _graceful_stop := graceful, stopEvent := true }
  if graceful then s1 else { s1 with incoming := [] }

/-- Predicate for when `stop` has returned: the stop event is set and both threads have
exited (both `join` calls completed). -/
def stopReturned (s : EngineState) : Bool :=
  s.stopEvent && s.fetchDone && s.procDone

/-- Which thread (or controller call) takes the next atomic step. -/
inductive Tag
  | fetch
  | proc
  | stop (graceful : Bool)
deriving DecidableEq, Repr

/-- Dispatch one scheduled atomic step. -/
def TradingEngine.step (s : EngineState) : Tag → EngineState
  | Tag.fetch => fetchStep s
  | Tag.proc => procStep s
  | Tag.stop g => stopStep g s

/-- Run the pipeline under an explicit schedule of atomic steps. -/
def TradingEngine.run (s : EngineState) (sched : List Tag) : EngineState :=
  sched.foldl TradingEngine.step s

/-- Engine state right after `TradingEngine.__init__` succeeded and
`connect` started both threads, before either thread has run: queues
empty, no stop requested, both threads at their loop tops. -/
def TradingEngine.initialState (source : List Record) (symbol : String)
    (indicators : List (String × SimpleMovingAverage)) : EngineState :=
  { source := source, symbol := symbol, stopEvent := false,
    _graceful_stop := false, incoming := [], processed := [],
    indicators := indicators, fetchDone := false,
    procPc := ProcPc.atLoopTop, procDone := false, calls := [] }

/-- Enum `Modes` from `src/engine.py`. -/
inductive Modes
  | LIVE
  | REPLAY
deriving DecidableEq, Repr

/-- The `mode` argument of `TradingEngine.__init__`: Python accepts any
object there, so the model distinguishes the two enum members from any
non-member value (`invalid`), for which `mode not in Modes` holds. -/
inductive ModeArg
  | valid (m : Modes)
  | invalid
deriving DecidableEq, Repr

/-- The Python `f.endswith(".csv")` test used by `ReplayDataHandler` to
discover the data file, expressed on the string's character list. -/
def endsWithCsv (f : String) : Bool :=
  f.data.reverse.take 4 == ['v', 's', 'c', '.']

/-- Constructor `TradingEngine.__init__`: an unrecognized mode exits the process
(`sys.exit(1)`); LIVE raises `NotImplementedError`, caught and turned into
`sys.exit(1)`; REPLAY constructs a `ReplayDataHandler`, which exits unless
the `csv_port` directory holds exactly one `.csv` file (the parsed records
of that file are passed in as `records`).  Errors model `sys.exit(1)`;
threads are only started later, by `connect` (`initialState`). -/
def TradingEngine.init (mode : ModeArg) (symbol : String)
    (csvFiles : List String) (records : List Record) : Except Unit EngineState :=
  match mode with
  | ModeArg.invalid => Except.error ()
  | ModeArg.valid Modes.LIVE => Except.error ()
  | ModeArg.valid Modes.REPLAY =>
      if (csvFiles.filter endsWithCsv).length = 1 then
        Except.ok (TradingEngine.initialState records symbol [])
      else Except.error ()

/-- Method `TradingEngine.add_indicator`: a registry entry keyed by the
indicator's name; a duplicate name is ignored with a warning, otherwise
the indicator is appended (Python dicts preserve insertion order). -/
def TradingEngine.add_indicator (indicators : List (String × SimpleMovingAverage))
    (indicator : SimpleMovingAverage) : List (String × SimpleMovingAverage) :=
  if (indicators.map Prod.fst).contains indicator.name then indicators
  else indicators ++ [(indicator.name, indicator)]

/-- Concrete bar used for witnesses and counterexamples: all four price
fields carry `price`, symbol `"ES"`. -/
def mkBar (ts : Nat) (price : ℚ) : BarEventMessage :=
  { ts_event := ts, «open» := price, high := price, low := price,
    close := price, volume := 1, symbol := "ES" }

/-- C9: for every bar and every indicator-values mapping, the enriched bar
built by `ProcessedBarEventMessage.from_bar` carries all seven fields of
the original bar unchanged, and only adds the indicators mapping. -/
theorem from_bar_preserves_fields (bar : BarEventMessage)
    (vals : List (String × Option ℚ)) :
    (ProcessedBarEventMessage.from_bar bar vals).ts_event = bar.ts_event ∧
    (ProcessedBarEventMessage.from_bar bar vals).«open» = bar.«open» ∧
    (ProcessedBarEventMessage.from_bar bar vals).high = bar.high ∧
    (ProcessedBarEventMessage.from_bar bar vals).low = bar.low ∧
    (ProcessedBarEventMessage.from_bar bar vals).close = bar.close ∧
    (ProcessedBarEventMessage.from_bar bar vals).volume = bar.volume ∧
    (ProcessedBarEventMessage.from_bar bar vals).symbol = bar.symbol ∧
    (ProcessedBarEventMessage.from_bar bar vals).indicators = vals :=
  ⟨rfl, rfl, rfl, rfl, rfl, rfl, rfl, rfl⟩

/-- C5: registering an indicator whose name is already a key of the
registry is a no-op: the registry (hence the entry for that name) is
unchanged, and `add_indicator` is total, so no exception is raised. -/
theorem add_indicator_duplicate_noop (indicators : List (String × SimpleMovingAverage))
    (indicator : SimpleMovingAverage)
    (h : (indicators.map Prod.fst).contains indicator.name = true) :
    TradingEngine.add_indicator indicators indicator = indicators := by
  simp only [TradingEngine.add_indicator, h, if_true]

/-- Witness for C5: adding `SMA_3_close` on top of a registry already
holding that name leaves the registry unchanged. -/
theorem add_indicator_duplicate_noop_witness :
    (([("SMA_3_close", SimpleMovingAverage.init 3 BarField.close)].map Prod.fst).contains
        (SimpleMovingAverage.init 3 BarField.close).name = true) ∧
    TradingEngine.add_indicator
        [("SMA_3_close", SimpleMovingAverage.init 3 BarField.close)]
        (SimpleMovingAverage.init 3 BarField.close) =
      [("SMA_3_close", SimpleMovingAverage.init 3 BarField.close)] :=
  ⟨by decide, add_indicator_duplicate_noop _ _ (by decide)⟩

/-- C7: construction with an unrecognized mode, or with the unimplemented
LIVE mode, fails fatally (models `sys.exit(1)`) before any pipeline thread
exists; REPLAY with a valid data port (exactly one `.csv` file) succeeds. -/
theorem init_mode_failure_policy (symbol : String) (csvFiles : List String)
    (records : List Record) :
    TradingEngine.init ModeArg.invalid symbol csvFiles records = Except.error () ∧
    TradingEngine.init (ModeArg.valid Modes.LIVE) symbol csvFiles records =
      Except.error () ∧
    ((csvFiles.filter endsWithCsv).length = 1 →
      (TradingEngine.init (ModeArg.valid Modes.REPLAY) symbol csvFiles records).isOk =
        true) := by
  refine ⟨rfl, rfl, fun h => ?_⟩
  unfold TradingEngine.init
  rw [if_pos h]
  rfl

/-- Witness for C7: with one CSV file present, REPLAY construction
succeeds while the invalid and LIVE modes exit. -/
theorem init_mode_failure_policy_witness :
    (["bars.csv"].filter endsWithCsv).length = 1 ∧
    (TradingEngine.init (ModeArg.valid Modes.REPLAY) "ES" ["bars.csv"] []).isOk = true ∧
    TradingEngine.init ModeArg.invalid "ES" ["bars.csv"] [] = Except.error () ∧
    TradingEngine.init (ModeArg.valid Modes.LIVE) "ES" ["bars.csv"] [] =
      Except.error () :=
  ⟨by decide,
   (init_mode_failure_policy "ES" ["bars.csv"] []).2.2 (by decide),
   (init_mode_failure_policy "ES" ["bars.csv"] []).1,
   (init_mode_failure_policy "ES" ["bars.csv"] []).2.1⟩

/-- C1: with K = 2 bars fully ingested and sitting in the inbound queue
and the processing thread at its loop top, `stop(graceful := true)`
returns (both threads exit) with the two bars still in the inbound queue
and zero enriched bars produced: the `while not stop_event` loop-top check
makes processing exit immediately instead of draining the backlog. -/
theorem graceful_stop_exits_without_draining :
    stopReturned (TradingEngine.run
      (TradingEngine.initialState
        [Record.row "ES" (mkBar 1 10), Record.row "ES" (mkBar 2 20)] "ES" [])
      [Tag.fetch, Tag.fetch, Tag.fetch, Tag.stop true, Tag.proc]) = true ∧
    (TradingEngine.run
      (TradingEngine.initialState
        [Record.row "ES" (mkBar 1 10), Record.row "ES" (mkBar 2 20)] "ES" [])
      [Tag.fetch, Tag.fetch, Tag.fetch, Tag.stop true, Tag.proc]).processed = [] ∧
    (TradingEngine.run
      (TradingEngine.initialState
        [Record.row "ES" (mkBar 1 10), Record.row "ES" (mkBar 2 20)] "ES" [])
      [Tag.fetch, Tag.fetch, Tag.fetch, Tag.stop true, Tag.proc]).incoming.length = 2 := by
  decide

/-- C6: an input of N = 2 bars with strictly increasing timestamps, fully
ingested, then stopped gracefully before processing consumed any: stop
returns with 0 enriched bars on the outbound channel instead of N = 2, so
the observed sequence does not have length N. -/
theorem order_preservation_length_violated :
    (mkBar 100 11).ts_event < (mkBar 200 12).ts_event ∧
    stopReturned (TradingEngine.run
      (TradingEngine.initialState
        [Record.row "ES" (mkBar 100 11), Record.row "ES" (mkBar 200 12)] "ES" [])
      [Tag.fetch, Tag.fetch, Tag.fetch, Tag.stop true, Tag.proc]) = true ∧
    (TradingEngine.run
      (TradingEngine.initialState
        [Record.row "ES" (mkBar 100 11), Record.row "ES" (mkBar 200 12)] "ES" [])
      [Tag.fetch, Tag.fetch, Tag.fetch, Tag.stop true, Tag.proc]).processed.length = 0 := by
  decide

/-- C4 as stated is false: with a transient read error on the first record
and a perfectly valid matching bar behind it, `get_next_bar` returns the
end-of-stream value, the ingestion loop terminates, and the subsequent
valid bar is never read — reading does not continue past the error. -/
theorem transient_error_halts_ingestion :
    (TradingEngine.run
      (TradingEngine.initialState [Record.err, Record.row "ES" (mkBar 1 10)] "ES" [])
      [Tag.fetch, Tag.fetch]).fetchDone = true ∧
    (TradingEngine.run
      (TradingEngine.initialState [Record.err, Record.row "ES" (mkBar 1 10)] "ES" [])
      [Tag.fetch, Tag.fetch]).calls = [none] ∧
    (TradingEngine.run
      (TradingEngine.initialState [Record.err, Record.row "ES" (mkBar 1 10)] "ES" [])
      [Tag.fetch, Tag.fetch]).incoming = [] := by
  decide

/-- A property preserved by every atomic step holds after any schedule. -/
theorem run_preserves (P : EngineState → Prop)
    (hstep : ∀ s t, P s → P (TradingEngine.step s t)) :
    ∀ (sched : List Tag) (s : EngineState), P s → P (TradingEngine.run s sched)
  | [], _, h => h
  | t :: ts, s, h => run_preserves P hstep ts (TradingEngine.step s t) (hstep s t h)

/-- States reached after an immediate stop that was issued before the
processing thread had consumed any bar: the stop event is set, the inbound
queue is (and stays) empty, nothing has been enriched, and the processing
thread holds no dequeued bar. -/
def DiscardedInv (s : EngineState) : Prop :=
  s.stopEvent = true ∧ s.incoming = [] ∧ s.processed = [] ∧
  ∀ b, s.procPc ≠ ProcPc.gotBar b

theorem discardedInv_step (s : EngineState) (t : Tag) (h : DiscardedInv s) :
    DiscardedInv (TradingEngine.step s t) := by
  obtain ⟨hstop, hin, hout, hpc⟩ := h
  cases t with
  | fetch =>
      show DiscardedInv (fetchStep s)
      unfold fetchStep
      by_cases hf : s.fetchDone = true
      · rw [if_pos hf]; exact ⟨hstop, hin, hout, hpc⟩
      · rw [if_neg hf, if_pos hstop]; exact ⟨hstop, hin, hout, hpc⟩
  | proc =>
      show DiscardedInv (procStep s)
      unfold procStep
      by_cases hp : s.procDone = true
      · rw [if_pos hp]; exact ⟨hstop, hin, hout, hpc⟩
      · rw [if_neg hp]
        split
        · rw [if_pos hstop]
          exact ⟨hstop, hin, hout, hpc⟩
        · split
          · rw [if_pos hstop]
            exact ⟨hstop, hin, hout, fun b hb => nomatch hb⟩
          · next b rest heq2 =>
              rw [hin] at heq2
              exact nomatch heq2
        · next b heq => exact absurd heq (hpc b)
  | stop g =>
      show DiscardedInv (stopStep g s)
      cases g with
      | false => exact ⟨rfl, rfl, hout, hpc⟩
      | true => exact ⟨rfl, hin, hout, hpc⟩

/-- C3: from any state in which the processing thread has consumed no bar
(outbound empty, no bar in hand) and K = `s.incoming.length` ≥ 1 bars sit
in the inbound channel, `stop(graceful := false)` flushes the inbound
channel, and under every subsequent interleaving the number of enriched
bars ever produced is 0, hence strictly less than K; every step is a total
function, so no error is raised. -/
theorem immediate_stop_discards_backlog (s : EngineState) (sched : List Tag)
    (hout : s.processed = []) (hpc : ∀ b, s.procPc ≠ ProcPc.gotBar b)
    (hK : 1 ≤ s.incoming.length) :
    (stopStep false s).incoming = [] ∧
    (TradingEngine.run (stopStep false s) sched).processed.length <
      s.incoming.length := by
  have hbase : DiscardedInv (stopStep false s) := ⟨rfl, rfl, hout, hpc⟩
  have hfin := run_preserves DiscardedInv discardedInv_step sched _ hbase
  refine ⟨hbase.2.1, ?_⟩
  rw [hfin.2.2.1]
  simpa using hK

/-- Scenario for the C3 witness: both bars ingested and queued, the
processing thread idle at its loop top, nothing enriched yet. -/
def discardScenario : EngineState :=
  { source := [], symbol := "ES", stopEvent := false, _graceful_stop := false,
    incoming := [mkBar 1 10, mkBar 2 20], processed := [], indicators := [],
    fetchDone := true, procPc := ProcPc.atLoopTop, procDone := false,
    calls := [some (mkBar 1 10), some (mkBar 2 20), none] }

/-- Witness for C3: K = 2 queued bars, immediate stop, then two processing
steps; the queue is flushed and 0 < 2 enriched bars are produced. -/
theorem immediate_stop_discards_backlog_witness :
    (discardScenario.processed = [] ∧ 1 ≤ discardScenario.incoming.length) ∧
    (stopStep false discardScenario).incoming = [] ∧
    (TradingEngine.run (stopStep false discardScenario)
      [Tag.proc, Tag.proc]).processed.length < discardScenario.incoming.length :=
  ⟨⟨rfl, by decide⟩,
   immediate_stop_discards_backlog discardScenario [Tag.proc, Tag.proc] rfl
     (fun _ hb => nomatch hb) (by decide)⟩

/-- States of a run whose source starts with a transient-error record and
whose processing side has nothing to do: nothing is ever ingested. -/
def ErrHaltInv (rest : List Record) (s : EngineState) : Prop :=
  s.incoming = [] ∧ s.processed = [] ∧ (∀ b, s.procPc ≠ ProcPc.gotBar b) ∧
  (s.fetchDone = false → s.source = Record.err :: rest)

theorem errHaltInv_step (rest : List Record) (s : EngineState) (t : Tag)
    (h : ErrHaltInv rest s) : ErrHaltInv rest (TradingEngine.step s t) := by
  obtain ⟨hin, hout, hpc, hsrc⟩ := h
  cases t with
  | fetch =>
      show ErrHaltInv rest (fetchStep s)
      unfold fetchStep
      by_cases hf : s.fetchDone = true
      · rw [if_pos hf]; exact ⟨hin, hout, hpc, hsrc⟩
      · rw [if_neg hf]
        by_cases hs : s.stopEvent = true
        · rw [if_pos hs]
          exact ⟨hin, hout, hpc, fun hc => nomatch hc⟩
        · rw [if_neg hs]
          have hsr : s.source = Record.err :: rest := hsrc (by simpa using hf)
          split
          · exact ⟨hin, hout, hpc, fun hc => nomatch hc⟩
          · next b rest2 heq =>
              rw [hsr] at heq
              simp [get_next_bar] at heq
  | proc =>
      show ErrHaltInv rest (procStep s)
      unfold procStep
      by_cases hp : s.procDone = true
      · rw [if_pos hp]; exact ⟨hin, hout, hpc, hsrc⟩
      · rw [if_neg hp]
        split
        · by_cases hs : s.stopEvent = true
          · rw [if_pos hs]; exact ⟨hin, hout, hpc, hsrc⟩
          · rw [if_neg hs]
            exact ⟨hin, hout, by intro b hb; simp at hb, hsrc⟩
        · split
          · by_cases hs : s.stopEvent = true
            · rw [if_pos hs]
              exact ⟨hin, hout, by intro b hb; simp at hb, hsrc⟩
            · rw [if_neg hs]
              exact ⟨hin, hout, by intro b hb; simp at hb, hsrc⟩
          · next b rest2 heq2 =>
              rw [hin] at heq2
              exact nomatch heq2
        · next b heq => exact absurd heq (hpc b)
  | stop g =>
      show ErrHaltInv rest (stopStep g s)
      cases g with
      | false => exact ⟨rfl, hout, hpc, hsrc⟩
      | true => exact ⟨hin, hout, hpc, hsrc⟩

/-- C4 amended: a transient read error is absorbed inside `get_next_bar`
(no exception reaches the engine controller), but it is reported as the
end-of-stream value `None`; consequently the ingestion loop terminates and
no subsequent valid bar of the stream is ever read or ingested in that
run, under every interleaving. -/
theorem transient_error_signals_end_of_stream (rest : List Record)
    (symbol : String) (inds : List (String × SimpleMovingAverage))
    (sched : List Tag) :
    get_next_bar (Record.err :: rest) symbol = (none, rest) ∧
    (TradingEngine.run (TradingEngine.initialState (Record.err :: rest) symbol inds)
      sched).incoming = [] ∧
    (TradingEngine.run (TradingEngine.initialState (Record.err :: rest) symbol inds)
      sched).processed = [] := by
  have hbase : ErrHaltInv rest
      (TradingEngine.initialState (Record.err :: rest) symbol inds) :=
    ⟨rfl, rfl, by intro b hb; simp [TradingEngine.initialState] at hb, fun _ => rfl⟩
  have hfin := run_preserves (ErrHaltInv rest) (errHaltInv_step rest) sched _ hbase
  exact ⟨rfl, hfin.1, hfin.2.1⟩

/-- Invariant of every run: while the ingestion loop is still alive every
recorded `get_next_bar` result is a bar; an end-of-stream (`none`) result
can only sit at the very end of the call trace, and its occurrence implies
the ingestion loop has terminated. -/
def CallsInv (s : EngineState) : Prop :=
  (s.fetchDone = false → s.calls.all Option.isSome = true) ∧
  s.calls.dropLast.all Option.isSome = true ∧
  (s.calls.getLast? = some none → s.fetchDone = true)

/-- The invariant `CallsInv` only looks at `calls` and `fetchDone`. -/
theorem callsInv_congr (s s2 : EngineState) (hcalls : s2.calls = s.calls)
    (hfd : s2.fetchDone = s.fetchDone) (h : CallsInv s) : CallsInv s2 := by
  obtain ⟨h1, h2, h3⟩ := h
  refine ⟨fun hc => ?_, ?_, fun hc => ?_⟩
  · rw [hcalls]; exact h1 (hfd ▸ hc)
  · rw [hcalls]; exact h2
  · rw [hfd]; exact h3 (hcalls ▸ hc)

theorem callsInv_step (s : EngineState) (t : Tag) (h : CallsInv s) :
    CallsInv (TradingEngine.step s t) := by
  obtain ⟨h1, h2, h3⟩ := h
  cases t with
  | fetch =>
      show CallsInv (fetchStep s)
      unfold fetchStep
      by_cases hf : s.fetchDone = true
      · rw [if_pos hf]; exact ⟨h1, h2, h3⟩
      · rw [if_neg hf]
        have hall : s.calls.all Option.isSome = true := h1 (by simpa using hf)
        by_cases hs : s.stopEvent = true
        · rw [if_pos hs]
          exact ⟨by intro hc; simp at hc, h2, fun _ => rfl⟩
        · rw [if_neg hs]
          split
          · refine ⟨by intro hc; simp at hc, ?_, fun _ => rfl⟩
            simpa using hall
          · next b rest2 heq =>
              refine ⟨fun _ => ?_, ?_, fun hc => ?_⟩
              · simpa [List.all_append] using hall
              · simpa using hall
              · simp at hc
  | proc =>
      show CallsInv (procStep s)
      unfold procStep
      split
      · exact ⟨h1, h2, h3⟩
      · split <;> try split
        all_goals try split
        all_goals exact callsInv_congr _ _ rfl rfl ⟨h1, h2, h3⟩
  | stop g =>
      show CallsInv (stopStep g s)
      cases g with
      | false => exact callsInv_congr _ _ rfl rfl ⟨h1, h2, h3⟩
      | true => exact callsInv_congr _ _ rfl rfl ⟨h1, h2, h3⟩

/-- C8: in every execution from an initial engine state, every
end-of-stream result in the trace of `get_next_bar` calls is the last call
made in that run (the trace with its last element removed contains only
bars), and once an end-of-stream result is recorded the ingestion loop has
terminated. -/
theorem end_of_stream_is_final (source : List Record) (symbol : String)
    (inds : List (String × SimpleMovingAverage)) (sched : List Tag) :
    ((TradingEngine.run (TradingEngine.initialState source symbol inds)
        sched).calls.dropLast).all Option.isSome = true ∧
    ((TradingEngine.run (TradingEngine.initialState source symbol inds)
        sched).calls.getLast? = some none →
      (TradingEngine.run (TradingEngine.initialState source symbol inds)
        sched).fetchDone = true) := by
  have hbase : CallsInv (TradingEngine.initialState source symbol inds) :=
    ⟨fun _ => rfl, rfl, by intro hc; simp [TradingEngine.initialState] at hc⟩
  have hfin := run_preserves CallsInv callsInv_step sched _ hbase
  exact ⟨hfin.2.1, hfin.2.2⟩

/-- Witness for C8: a one-bar source; the third scheduled fetch is a no-op
because the loop already terminated on the end-of-stream result. -/
theorem end_of_stream_is_final_witness :
    ((TradingEngine.run (TradingEngine.initialState [Record.row "ES" (mkBar 1 10)]
        "ES" []) [Tag.fetch, Tag.fetch, Tag.fetch]).calls.dropLast).all
      Option.isSome = true ∧
    (TradingEngine.run (TradingEngine.initialState [Record.row "ES" (mkBar 1 10)]
        "ES" []) [Tag.fetch, Tag.fetch, Tag.fetch]).fetchDone = true :=
  ⟨(end_of_stream_is_final [Record.row "ES" (mkBar 1 10)] "ES" []
      [Tag.fetch, Tag.fetch, Tag.fetch]).1,
   (end_of_stream_is_final [Record.row "ES" (mkBar 1 10)] "ES" []
      [Tag.fetch, Tag.fetch, Tag.fetch]).2 (by decide)⟩

/-- Appending one sample to the folded deque is one `dequeAppend`. -/
theorem dequeFold_snoc (P : Nat) (l : List ℚ) (x : ℚ) :
    dequeFold P (l ++ [x]) = dequeAppend P (dequeFold P l) x := by
  simp [dequeFold, List.foldl_append]

/-- The trailing buffer holds `min k P` samples after `k` appends. -/
theorem dequeFold_length (P : Nat) (l : List ℚ) :
    (dequeFold P l).length = min l.length P := by
  induction l using List.reverseRecOn with
  | nil => simp [dequeFold]
  | append_singleton l x ih =>
      rw [dequeFold_snoc]
      simp only [dequeAppend, List.length_drop, List.length_append,
        List.length_singleton]
      rw [ih]
      omega

/-- The trailing buffer holds exactly the last `P` samples of the history
(all of it while fewer than `P` have been seen). -/
theorem dequeFold_eq_drop (P : Nat) (l : List ℚ) :
    dequeFold P l = l.drop (l.length - P) := by
  induction l using List.reverseRecOn with
  | nil => simp [dequeFold]
  | append_singleton l x ih =>
      rw [dequeFold_snoc, ih]
      unfold dequeAppend
      rw [List.length_drop]
      rcases Nat.lt_or_ge l.length P with hP | hP
      · have h1 : l.length - P = 0 := by omega
        rw [h1]
        simp only [List.drop_zero, Nat.sub_zero, List.length_append,
          List.length_singleton]
      · rcases Nat.eq_zero_or_pos P with h0 | h0
        · subst h0
          simp [List.drop_length]
        · have h1 : l.length - (l.length - P) = P := by omega
          rw [h1]
          have h2 : P + 1 - P = 1 := by omega
          rw [h2]
          rw [List.drop_append_eq_append_drop, List.drop_drop]
          rw [List.drop_append_eq_append_drop]
          have h3 : l.length - P + 1 = l.length + 1 - P := by omega
          have h4 : 1 - (l.drop (l.length - P)).length = 0 := by
            rw [List.length_drop]; omega
          have h5 : (l ++ [x]).length - P = l.length + 1 - P := by
            simp only [List.length_append, List.length_singleton]
          have h6 : l.length + 1 - P - l.length = 0 := by omega
          rw [h3, h4, h5, h6]

/-- The pure `updateP` never changes the configured period. -/
theorem updateP_period (s : SimpleMovingAverage) (b : BarEventMessage) :
    (s.updateP b).period = s.period := by
  simp only [SimpleMovingAverage.updateP]
  split <;> rfl

/-- For a nonzero period, `update` cannot raise and agrees with the pure
`updateP`: the division is guarded by `len(values) == period`, whose
right-hand side is the nonzero divisor. -/
theorem update_eq_ok (s : SimpleMovingAverage) (b : BarEventMessage)
    (h : s.period ≠ 0) : s.update b = Except.ok (s.updateP b) := by
  simp only [SimpleMovingAverage.update, SimpleMovingAverage.updateP, h]
  split <;> rfl

/-- Feeding bars through the raising `update` succeeds and agrees with the
pure fold whenever the period is nonzero. -/
theorem smaFoldM_eq (bars : List BarEventMessage) (s : SimpleMovingAverage)
    (h : s.period ≠ 0) :
    bars.foldlM SimpleMovingAverage.update s =
      Except.ok (bars.foldl SimpleMovingAverage.updateP s) := by
  induction bars generalizing s with
  | nil => rfl
  | cons b bs ih =>
      rw [List.foldlM_cons, update_eq_ok s b h]
      show bs.foldlM SimpleMovingAverage.update (s.updateP b) = _
      rw [ih (s.updateP b) (by rw [updateP_period]; exact h)]
      rfl

/-- Relation between an abstract sample history and the SMA state reached
by feeding it: the buffer is the fold of the history through the deque,
and the cached value is the mean of the full buffer once `P` samples have
been seen, the absent marker before. -/
def SmaInv (P : Nat) (F : BarField) (hist : List ℚ) (s : SimpleMovingAverage) : Prop :=
  s.period = P ∧ s.applied_on = F ∧ s.values = dequeFold P hist ∧
  s._current_value =
    (if hist.length < P then none else some ((dequeFold P hist).sum / (P : ℚ)))

theorem smaInv_step (P : Nat) (F : BarField) (hist : List ℚ)
    (s : SimpleMovingAverage) (b : BarEventMessage) (h : SmaInv P F hist s) :
    SmaInv P F (hist ++ [b.getattr F]) (s.updateP b) := by
  obtain ⟨hp, hf, hv, hc⟩ := h
  simp only [SimpleMovingAverage.updateP]
  rw [hp, hf, hv, ← dequeFold_snoc]
  by_cases hfull : P ≤ hist.length + 1
  · have hlen : (dequeFold P (hist ++ [b.getattr F])).length = P := by
      rw [dequeFold_length]
      simp only [List.length_append, List.length_singleton]
      omega
    rw [if_pos hlen]
    refine ⟨rfl, rfl, rfl, ?_⟩
    have hnl : ¬ (hist ++ [b.getattr F]).length < P := by
      simp only [List.length_append, List.length_singleton]
      omega
    rw [if_neg hnl]
  · have hlen : (dequeFold P (hist ++ [b.getattr F])).length ≠ P := by
      rw [dequeFold_length]
      simp only [List.length_append, List.length_singleton]
      omega
    rw [if_neg hlen]
    refine ⟨rfl, rfl, rfl, ?_⟩
    have hl1 : (hist ++ [b.getattr F]).length < P := by
      simp only [List.length_append, List.length_singleton]
      omega
    have hl2 : hist.length < P := by omega
    rw [hc, if_pos hl2, if_pos hl1]

theorem smaInv_fold (P : Nat) (F : BarField) :
    ∀ (bars : List BarEventMessage) (hist : List ℚ) (s : SimpleMovingAverage),
      SmaInv P F hist s →
      SmaInv P F (hist ++ bars.map (fun b => b.getattr F))
        (bars.foldl SimpleMovingAverage.updateP s)
  | [], hist, s, h => by simpa using h
  | b :: bs, hist, s, h => by
      have h3 := smaInv_fold P F bs (hist ++ [b.getattr F]) (s.updateP b)
        (smaInv_step P F hist s b h)
      simpa using h3

/-- C2: for a `SimpleMovingAverage` of period `P ≥ 1` on field `F`, after
feeding any list of bars the observable value is the absent marker while
fewer than `P` bars have been seen, and from the `P`-th bar onward it is
the arithmetic mean of the `F`-values of the last `P` bars fed. -/
theorem sma_value_spec (P : Nat) (F : BarField) (bars : List BarEventMessage)
    (hP : 1 ≤ P) :
    smaValue P F bars =
      Except.ok (if bars.length < P then none
        else some (((bars.map (fun b => b.getattr F)).drop (bars.length - P)).sum /
          (P : ℚ))) := by
  have hinit : SmaInv P F [] (SimpleMovingAverage.init P F) := by
    refine ⟨rfl, rfl, rfl, ?_⟩
    have h0 : ([] : List ℚ).length < P := by simpa using hP
    rw [if_pos h0]
    rfl
  have hfold := smaInv_fold P F bars [] (SimpleMovingAverage.init P F) hinit
  unfold smaValue smaState
  rw [smaFoldM_eq bars _ (by simpa [SimpleMovingAverage.init] using Nat.one_le_iff_ne_zero.mp hP)]
  have hval := hfold.2.2.2
  show Except.ok (bars.foldl SimpleMovingAverage.updateP
      (SimpleMovingAverage.init P F)).value = _
  rw [SimpleMovingAverage.value, hval, dequeFold_eq_drop]
  simp only [List.nil_append, List.length_map]

/-- Witness for C2: period 3 on close prices 10, 20, 30, 40 gives the mean
30 of the last three closes (and the same theorem at the shorter prefixes
gives the absent marker and 20). -/
theorem sma_value_spec_witness :
    smaValue 3 BarField.close
        [mkBar 1 10, mkBar 2 20, mkBar 3 30, mkBar 4 40] = Except.ok (some 30) ∧
    smaValue 3 BarField.close [mkBar 1 10, mkBar 2 20] = Except.ok none := by
  constructor
  · rw [sma_value_spec 3 BarField.close
      [mkBar 1 10, mkBar 2 20, mkBar 3 30, mkBar 4 40] (by decide)]
    norm_num [mkBar, BarEventMessage.getattr]
  · rw [sma_value_spec 3 BarField.close [mkBar 1 10, mkBar 2 20] (by decide)]
    norm_num [mkBar, BarEventMessage.getattr]

/-- C10: for any period `P ≥ 1` no update ever raises — the division is
performed only when the buffer holds exactly `period` samples, so the
divisor is nonzero — while for period 0 the guard `len(values) == period`
holds vacuously on the very first update and the division by zero raises. -/
theorem sma_division_guard (F : BarField) (b : BarEventMessage) :
    (∀ (P : Nat), 1 ≤ P → ∀ (bars : List BarEventMessage),
      (smaState P F bars).isOk = true) ∧
    (SimpleMovingAverage.init 0 F).update b = Except.error "ZeroDivisionError" := by
  constructor
  · intro P hP bars
    unfold smaState
    rw [smaFoldM_eq bars _ (by simpa [SimpleMovingAverage.init] using Nat.one_le_iff_ne_zero.mp hP)]
    rfl
  · rfl

/-- Witness for C10: period 2 never raises on a sample run; period 0
raises `ZeroDivisionError` on the very first update. -/
theorem sma_division_guard_witness :
    (smaState 2 BarField.close [mkBar 1 10, mkBar 2 20, mkBar 3 30]).isOk = true ∧
    (SimpleMovingAverage.init 0 BarField.close).update (mkBar 1 10) =
      Except.error "ZeroDivisionError" :=
  ⟨(sma_division_guard BarField.close (mkBar 1 10)).1 2 (by decide)
      [mkBar 1 10, mkBar 2 20, mkBar 3 30],
   (sma_division_guard BarField.close (mkBar 1 10)).2⟩
